import Mathlib

/-!
Verification model of bitbox-torture (src/main.rs).

The fill driver (fill_database, src/main.rs lines 213-284) is embedded as a
pure function over an abstract key/value generator: the loop structure, the
batch accounting, the calls issued to the storage backends and the preflight
policy for an existing database are translated directly from the source; the
backends themselves are external crates and appear only through the calls the
harness makes to them.  The key generator (rand_pcg::Pcg64 seeded at
src/main.rs line 230 together with the hot/cold key selection of lines
244-254) is embedded bit-exactly in the second half of the definitions,
following the rand_pcg Lcg128Xsl64 and rand 0.8 Bernoulli / UniformInt
sources that the harness links against.
-/

/-- Engine selection, src/main.rs lines 13-17. -/
inductive EngineKind where
  | mdbx
  | rocksdb
deriving DecidableEq

/-- MDBX durability mode chosen at open time, src/main.rs lines 104-110. -/
inductive SyncMode where
  | durable
  | utterlyNoSync
deriving DecidableEq

/-- Global CLI flags read by fill_database, src/main.rs lines 31-52.  The
path argument is modelled separately, as the file-system state found at that
path. -/
structure Cli where
  kind : EngineKind
  y : Bool
  cont : Bool
  yolo : Bool

/-- Options of the fill subcommand, src/main.rs lines 69-84.  The cold
probability only affects the key generator, which the driver model abstracts
over, so it is carried by the generator model instead. -/
structure FillOpts where
  n : ℕ
  batch_sz : ℕ
  value_sz : ℕ

/-- Observable calls made to the storage backends, plus the progress report
written between batches (src/main.rs lines 270-279).  The flush entry points
(mdbx env_sync, rocksdb flush) exist in the backends but the harness never
calls them; they are listed so that their absence from every trace is a
provable statement rather than a modelling artifact. -/
inductive Ev where
  | openMdbx (sync : SyncMode)
  | openRocksdb
  | mdbxBeginRwTxn
  | mdbxCreateDb
  | rocksdbNewWriteBatch
  | mdbxPut
  | rocksdbBatchPut
  | mdbxCommit
  | rocksdbWriteWithoutWal
  | mdbxEnvSync
  | rocksdbFlush
  | report
deriving DecidableEq

/-- Engine::open, src/main.rs lines 92-129: mdbx is opened with the
durability mode derived from the yolo flag (lines 104-110); rocksdb is opened
with DB::open_default (line 127), which does not read yolo. -/
def openEv (kind : EngineKind) (yolo : Bool) : Ev :=
  match kind with
  | .mdbx => .openMdbx (if yolo then .utterlyNoSync else .durable)
  | .rocksdb => .openRocksdb

/-- Engine::begin, src/main.rs lines 131-146: mdbx begins a read-write
transaction and creates the default table; rocksdb builds a fresh write
batch. -/
def beginEvs : EngineKind → List Ev
  | .mdbx => [.mdbxBeginRwTxn, .mdbxCreateDb]
  | .rocksdb => [.rocksdbNewWriteBatch]

/-- Tx::put, src/main.rs lines 173-183. -/
def putEv : EngineKind → Ev
  | .mdbx => .mdbxPut
  | .rocksdb => .rocksdbBatchPut

/-- Tx::commit, src/main.rs lines 185-196: mdbx commits the transaction;
rocksdb writes the staged batch with write_without_wal (line 192),
unconditionally. -/
def commitEv : EngineKind → Ev
  | .mdbx => .mdbxCommit
  | .rocksdb => .rocksdbWriteWithoutWal

def isFlush : Ev → Bool
  | .mdbxEnvSync => true
  | .rocksdbFlush => true
  | _ => false

def isPut : Ev → Bool
  | .mdbxPut => true
  | .rocksdbBatchPut => true
  | _ => false

def isCommitCall : Ev → Bool
  | .mdbxCommit => true
  | .rocksdbWriteWithoutWal => true
  | _ => false

def isReport : Ev → Bool
  | .report => true
  | _ => false

/-- Record of one committed batch: how many put operations it staged, and
whether the progress lines of src/main.rs lines 270-279 were printed after
its commit (they are skipped exactly when the loop breaks at line 267). -/
structure BatchRec where
  puts : ℕ
  reported : Bool
deriving DecidableEq

def putsSum : List BatchRec → ℕ
  | [] => 0
  | b :: bs => b.puts + putsSum bs

/-- Result of the outer fill loop: the committed batches in order, the
backend calls and reports in order, and whether the loop has broken out
(done = false means the fuel ran out while the source loop would still be
running; the source loop has no bound of its own). -/
structure LoopOut where
  batches : List BatchRec
  events : List Ev
  done : Bool
deriving DecidableEq

/-- Inner batch loop, src/main.rs lines 239-257: up to batch_sz iterations,
each first checking remaining = 0 and breaking if so, otherwise drawing a
key/value pair from the generator (abstracted as a state transition next),
staging one put and decrementing remaining.  Returns the generator state
after the batch and the number of puts performed. -/
def batchPuts {σ : Type} (next : σ → σ) : ℕ → σ → ℕ → σ × ℕ
  | 0, g, _ => (g, 0)
  | i + 1, g, r =>
    if r = 0 then (g, 0)
    else ((batchPuts next i (next g) (r - 1)).1, (batchPuts next i (next g) (r - 1)).2 + 1)

/-- Outer fill loop, src/main.rs lines 235-281, observed for at most fuel
rounds.  Each round begins a transaction, runs the inner batch loop, commits,
breaks if remaining reached zero, and otherwise prints the progress report
and repeats. -/
def fillLoop (kind : EngineKind) (bsz : ℕ) {σ : Type} (next : σ → σ) :
    ℕ → σ → ℕ → LoopOut
  | 0, _, _ => ⟨[], [], false⟩
  | fuel + 1, g, r =>
    let p := (batchPuts next bsz g r).2
    let evs := beginEvs kind ++ (List.replicate p (putEv kind) ++ [commitEv kind])
    if r - p = 0 then ⟨[⟨p, false⟩], evs, true⟩
    else
      ⟨⟨p, true⟩ :: (fillLoop kind bsz next fuel (batchPuts next bsz g r).1 (r - p)).batches,
        evs ++ Ev.report :: (fillLoop kind bsz next fuel (batchPuts next bsz g r).1 (r - p)).events,
        (fillLoop kind bsz next fuel (batchPuts next bsz g r).1 (r - p)).done⟩

/-- Kind of node present at the database path before the run.  Both backends
lay their data out as a directory at that path: libmdbx in its default
subdirectory mode (the builder at src/main.rs lines 100-122 never sets
no_sub_dir) and rocksdb always. -/
inductive FileKind where
  | file
  | dir
deriving DecidableEq

/-- Behaviour of std::fs::remove_file at the database path: it unlinks a
plain file and returns an error on a directory or a missing path.  The
caller (src/main.rs line 217) discards the error with a wildcard let
binding, so a failed removal simply leaves the state unchanged. -/
def remove_file : Option FileKind → Option FileKind
  | some .file => none
  | other => other

def abortMsg : String := "Database already exists, aborting."

/-- How a fill run ended: aborted in preflight, completed with the recorded
batches, or still spinning in the loop when the observation fuel ran out. -/
inductive Outcome where
  | aborted (msg : String)
  | completed (batches : List BatchRec)
  | spinning
deriving DecidableEq

/-- Result of fill_database: what is left of the pre-existing on-disk state
at the path after preflight, the backend calls issued, and how the run
ended.  Fresh on-disk state created by the engines themselves is not
modelled; the fs field tracks the fate of the state that was already
there. -/
structure RunOut where
  fs : Option FileKind
  events : List Ev
  outcome : Outcome
deriving DecidableEq

/-- Opening the engine and running the fill loop, src/main.rs lines 228-281,
after preflight has resolved the existing-database policy. -/
def engineRun (cli : Cli) (opts : FillOpts) {σ : Type} (next : σ → σ) (g : σ)
    (fs : Option FileKind) (fuel : ℕ) : RunOut :=
  { fs := fs
    events := openEv cli.kind cli.yolo ::
      (fillLoop cli.kind opts.batch_sz next fuel g opts.n).events
    outcome :=
      if (fillLoop cli.kind opts.batch_sz next fuel g opts.n).done then
        .completed (fillLoop cli.kind opts.batch_sz next fuel g opts.n).batches
      else .spinning }

/-- fill_database, src/main.rs lines 213-284.  Preflight (lines 214-223): if
the path exists, the -y flag triggers a removal attempt whose error is
discarded, the cont flag continues on the existing state, and otherwise the
run aborts before the engine is opened.  The loop body is fillLoop; note
that after the loop the function returns immediately, with no further
backend call of any kind. -/
def fill_database (cli : Cli) (opts : FillOpts) {σ : Type} (next : σ → σ) (g : σ)
    (fs : Option FileKind) (fuel : ℕ) : RunOut :=
  match fs with
  | some k =>
    if cli.y then engineRun cli opts next g (remove_file (some k)) fuel
    else if cli.cont then engineRun cli opts next g (some k) fuel
    else { fs := some k, events := [], outcome := .aborted abortMsg }
  | none => engineRun cli opts next g none fuel

def reportCount (evs : List Ev) : ℕ := evs.countP isReport

def flushCount (evs : List Ev) : ℕ := evs.countP isFlush

def putCount (evs : List Ev) : ℕ := evs.countP isPut

/-- Successive values of the remaining counter at batch boundaries: it
starts at n and each committed batch subtracts its puts. -/
def remTrace (n : ℕ) : List BatchRec → List ℕ
  | [] => [n]
  | b :: bs => n :: remTrace (n - b.puts) bs

/-- Default multiplier of the 128-bit PCG linear congruential step
(rand_pcg Lcg128Xsl64). -/
def pcgMultiplier : ℕ := 0x2360ed051fc65da44385df649fccf645

/-- State of rand_pcg::Pcg64 (Lcg128Xsl64): a 128-bit LCG state and a
128-bit odd increment, both kept reduced modulo 2 to the 128. -/
structure Pcg64 where
  state : ℕ
  increment : ℕ
deriving DecidableEq

/-- One LCG step: state := state * MULTIPLIER + increment, wrapping at 128
bits. -/
def Pcg64.step (g : Pcg64) : Pcg64 :=
  ⟨(g.state * pcgMultiplier + g.increment) % 2 ^ 128, g.increment⟩

/-- Rotate a 64-bit word right by r (u64 rotate_right takes r modulo 64). -/
def rotr64 (x r : ℕ) : ℕ :=
  (x >>> (r % 64)) ||| ((x <<< (64 - r % 64)) % 2 ^ 64)

/-- XSL-RR output function of pcg64: xor-fold the 128-bit state to 64 bits
and rotate right by its top six bits. -/
def outputXslRr (state : ℕ) : ℕ :=
  rotr64 ((state >>> 64) ^^^ (state % 2 ^ 64)) (state >>> 122)

/-- RngCore::next_u64 for Lcg128Xsl64: advance the state, then apply the
output function to the new state. -/
def Pcg64.next_u64 (g : Pcg64) : ℕ × Pcg64 :=
  (outputXslRr g.step.state, g.step)

/-- RngCore::next_u32 for Lcg128Xsl64: next_u64 truncated to 32 bits. -/
def Pcg64.next_u32 (g : Pcg64) : ℕ × Pcg64 :=
  (g.next_u64.1 % 2 ^ 32, g.next_u64.2)

/-- Pcg64::new(state, stream): the increment is stream shifted left by one
with the low bit forced odd; construction adds the increment to the seed
state and performs one step (Lcg128Xsl64::from_state_incr). -/
def Pcg64.new (state stream : ℕ) : Pcg64 :=
  Pcg64.step
    ⟨(state % 2 ^ 128 + ((stream <<< 1) ||| 1) % 2 ^ 128) % 2 ^ 128,
      ((stream <<< 1) ||| 1) % 2 ^ 128⟩

/-- The fixed generator of src/main.rs line 230: rand_pcg::Pcg64::new with
the two hard-coded 64-bit and 128-bit seed constants. -/
def fillSeedRng : Pcg64 :=
  Pcg64.new 0xcafef00dd15ea5e5 0x60e11a7bf9cb254560e11a7bf9cb2545

/-- Little-endian expansion of the low k bytes of x. -/
def leBytes (x k : ℕ) : List ℕ :=
  (List.range k).map fun i => (x >>> (8 * i)) % 256

/-- RngCore::fill_bytes for Lcg128Xsl64 (rand_core fill_bytes_via_next):
full 8-byte chunks come from next_u64 in little-endian order, a 5..7 byte
tail from one more next_u64, and a 1..4 byte tail from next_u32. -/
def fill_bytes (n : ℕ) (g : Pcg64) : List ℕ × Pcg64 :=
  if h : 8 ≤ n then
    (leBytes g.next_u64.1 8 ++ (fill_bytes (n - 8) g.next_u64.2).1,
      (fill_bytes (n - 8) g.next_u64.2).2)
  else if 4 < n then
    (leBytes g.next_u64.1 n, g.next_u64.2)
  else if 0 < n then
    (leBytes g.next_u32.1 n, g.next_u32.2)
  else ([], g)
termination_by n
decreasing_by all_goals omega

/-- Threshold marking probability one in rand 0.8's Bernoulli distribution:
Bernoulli::new(1.0) stores ALWAYS_TRUE (u64 max) and sampling then returns
true without consuming the generator. -/
def ALWAYS_TRUE : ℕ := 2 ^ 64 - 1

/-- Rng::gen_bool via rand 0.8's Bernoulli: the probability argument is
pre-scaled to a u64 threshold p_int (the float-to-integer scaling happens
outside this model); the ALWAYS_TRUE threshold short-circuits to true
without drawing, otherwise one u64 is drawn and compared. -/
def gen_bool (p_int : ℕ) (g : Pcg64) : Bool × Pcg64 :=
  if p_int = ALWAYS_TRUE then (true, g)
  else (decide (g.next_u64.1 < p_int), g.next_u64.2)

/-- Count of leading zero bits of x as a u64. -/
def leadingZeros64 (x : ℕ) : ℕ :=
  if x = 0 then 64 else 63 - Nat.log2 x

/-- UniformInt::sample_single for gen_range(0..range) on a 64-bit platform
(rand 0.8): zone-based rejection sampling over the widening product of a
fresh u64 with the range.  The source rejects in an unbounded loop; fuel
bounds the number of draws observed, with none meaning it was still
rejecting. -/
def sample_single (range : ℕ) : ℕ → Pcg64 → Option (ℕ × Pcg64)
  | 0, _ => none
  | fuel + 1, g =>
    let zone := ((range <<< leadingZeros64 range) % 2 ^ 64 + (2 ^ 64 - 1)) % 2 ^ 64
    if g.next_u64.1 * range % 2 ^ 64 ≤ zone then
      some (g.next_u64.1 * range / 2 ^ 64, g.next_u64.2)
    else sample_single range fuel g.next_u64.2

/-- One draw of the key-locality generator, src/main.rs lines 244-255.  When
the pool is empty the gen_bool draw is short-circuited away by the Rust
or-operator; a cold draw fills 32 fresh key bytes and appends the key to the
pool, a warm draw indexes the pool uniformly; the value bytes are freshly
drawn afterwards in either case.  Returns the key, the value, the new pool
and the new generator state, or none if the rejection-sampling fuel ran
out. -/
def klgNext (p_int value_sz fuel : ℕ) (pool : List (List ℕ)) (g : Pcg64) :
    Option (List ℕ × List ℕ × List (List ℕ) × Pcg64) :=
  if pool.isEmpty = true then
    some ((fill_bytes 32 g).1,
      (fill_bytes value_sz (fill_bytes 32 g).2).1,
      pool ++ [(fill_bytes 32 g).1],
      (fill_bytes value_sz (fill_bytes 32 g).2).2)
  else
    match gen_bool p_int g with
    | (true, g1) =>
      some ((fill_bytes 32 g1).1,
        (fill_bytes value_sz (fill_bytes 32 g1).2).1,
        pool ++ [(fill_bytes 32 g1).1],
        (fill_bytes value_sz (fill_bytes 32 g1).2).2)
    | (false, g1) =>
      match sample_single pool.length fuel g1 with
      | none => none
      | some (idx, g2) =>
        some (pool.getD idx [],
          (fill_bytes value_sz g2).1,
          pool,
          (fill_bytes value_sz g2).2)

/-- Sequence of keys produced by n successive generator draws, threading the
pool and the generator state exactly as the fill loop does. -/
def klgRun (p_int value_sz fuel : ℕ) : ℕ → List (List ℕ) → Pcg64 →
    Option (List (List ℕ) × List (List ℕ) × Pcg64)
  | 0, pool, g => some ([], pool, g)
  | k + 1, pool, g =>
    match klgNext p_int value_sz fuel pool g with
    | none => none
    | some (key, _val, pool1, g1) =>
      match klgRun p_int value_sz fuel k pool1 g1 with
      | none => none
      | some (ks, pool2, g2) => some (key :: ks, pool2, g2)

lemma batchPuts_snd {σ : Type} (next : σ → σ) :
    ∀ (i : ℕ) (g : σ) (r : ℕ), (batchPuts next i g r).2 = min i r := by
  intro i
  induction i with
  | zero => intro g r; simp [batchPuts]
  | succ k ih =>
    intro g r
    cases r with
    | zero => simp [batchPuts]
    | succ m =>
      simp only [batchPuts, Nat.succ_ne_zero, if_false, Nat.add_sub_cancel]
      rw [ih]
      omega

lemma batchPuts_zero {σ : Type} (next : σ → σ) (i : ℕ) (g : σ) :
    batchPuts next i g 0 = (g, 0) := by
  cases i <;> simp [batchPuts]

lemma fillLoop_succ (kind : EngineKind) (bsz : ℕ) {σ : Type} (next : σ → σ)
    (m : ℕ) (g : σ) (r : ℕ) :
    fillLoop kind bsz next (m + 1) g r =
      if r - (batchPuts next bsz g r).2 = 0 then
        ⟨[⟨(batchPuts next bsz g r).2, false⟩],
          beginEvs kind ++ (List.replicate (batchPuts next bsz g r).2 (putEv kind)
            ++ [commitEv kind]),
          true⟩
      else
        ⟨⟨(batchPuts next bsz g r).2, true⟩ ::
            (fillLoop kind bsz next m (batchPuts next bsz g r).1
              (r - (batchPuts next bsz g r).2)).batches,
          (beginEvs kind ++ (List.replicate (batchPuts next bsz g r).2 (putEv kind)
            ++ [commitEv kind]))
            ++ Ev.report :: (fillLoop kind bsz next m (batchPuts next bsz g r).1
              (r - (batchPuts next bsz g r).2)).events,
          (fillLoop kind bsz next m (batchPuts next bsz g r).1
            (r - (batchPuts next bsz g r).2)).done⟩ := rfl

lemma fillLoop_zero_items (kind : EngineKind) (bsz : ℕ) {σ : Type} (next : σ → σ)
    (fuel : ℕ) (g : σ) :
    fillLoop kind bsz next (fuel + 1) g 0 =
      ⟨[⟨0, false⟩], beginEvs kind ++ [commitEv kind], true⟩ := by
  rw [fillLoop_succ, batchPuts_zero]
  simp

lemma fillLoop_bsz_zero (kind : EngineKind) {σ : Type} (next : σ → σ) :
    ∀ (fuel : ℕ) (g : σ) (r : ℕ), r ≠ 0 →
      (fillLoop kind 0 next fuel g r).done = false := by
  intro fuel
  induction fuel with
  | zero => intro g r _; rfl
  | succ m ih =>
    intro g r hr
    rw [fillLoop_succ]
    have hp : (batchPuts next 0 g r).2 = 0 := by rw [batchPuts_snd]; omega
    rw [hp]
    rw [if_neg (by omega)]
    exact ih (batchPuts next 0 g r).1 (r - 0) (by omega)

lemma fillLoop_events_cases (kind : EngineKind) (bsz : ℕ) {σ : Type} (next : σ → σ) :
    ∀ (fuel : ℕ) (g : σ) (r : ℕ) (e : Ev),
      e ∈ (fillLoop kind bsz next fuel g r).events →
        e ∈ beginEvs kind ∨ e = putEv kind ∨ e = commitEv kind ∨ e = Ev.report := by
  intro fuel
  induction fuel with
  | zero => intro g r e he; simp [fillLoop] at he
  | succ m ih =>
    intro g r e he
    rw [fillLoop_succ] at he
    by_cases h0 : r - (batchPuts next bsz g r).2 = 0
    · rw [if_pos h0] at he
      simp only [List.mem_append, List.mem_replicate, List.mem_singleton] at he
      rcases he with h | ⟨-, h⟩ | h
      · exact Or.inl h
      · exact Or.inr (Or.inl h)
      · exact Or.inr (Or.inr (Or.inl h))
    · rw [if_neg h0] at he
      simp only [List.mem_append, List.mem_cons, List.mem_replicate,
        List.mem_singleton, List.not_mem_nil, or_false] at he
      rcases he with (h | ⟨-, h⟩ | h) | h | h
      · exact Or.inl h
      · exact Or.inr (Or.inl h)
      · exact Or.inr (Or.inr (Or.inl h))
      · exact Or.inr (Or.inr (Or.inr h))
      · exact ih _ _ e h

lemma ev_batch_not_flush (kind : EngineKind) (e : Ev)
    (h : e ∈ beginEvs kind ∨ e = putEv kind ∨ e = commitEv kind ∨ e = Ev.report) :
    isFlush e = false := by
  cases kind <;> cases e <;> simp_all [beginEvs, putEv, commitEv, isFlush]

lemma fillLoop_flushCount (kind : EngineKind) (bsz : ℕ) {σ : Type} (next : σ → σ)
    (fuel : ℕ) (g : σ) (r : ℕ) :
    flushCount (fillLoop kind bsz next fuel g r).events = 0 := by
  unfold flushCount
  rw [List.countP_eq_zero]
  intro e he
  simp [ev_batch_not_flush kind e (fillLoop_events_cases kind bsz next fuel g r e he)]

lemma ev_batch_commit_rocksdb (e : Ev)
    (h : e ∈ beginEvs EngineKind.rocksdb ∨ e = putEv EngineKind.rocksdb
      ∨ e = commitEv EngineKind.rocksdb ∨ e = Ev.report)
    (hc : isCommitCall e = true) : e = Ev.rocksdbWriteWithoutWal := by
  cases e <;> simp_all [beginEvs, putEv, commitEv, isCommitCall]

lemma fill_database_events_cases (cli : Cli) (opts : FillOpts) {σ : Type}
    (next : σ → σ) (g : σ) (fs : Option FileKind) (fuel : ℕ) :
    ∀ e ∈ (fill_database cli opts next g fs fuel).events,
      e = openEv cli.kind cli.yolo ∨ e ∈ beginEvs cli.kind ∨ e = putEv cli.kind
        ∨ e = commitEv cli.kind ∨ e = Ev.report := by
  intro e he
  have hrun : ∀ fs', e ∈ (engineRun cli opts next g fs' fuel).events →
      e = openEv cli.kind cli.yolo ∨ e ∈ beginEvs cli.kind ∨ e = putEv cli.kind
        ∨ e = commitEv cli.kind ∨ e = Ev.report := by
    intro fs' h
    simp only [engineRun, List.mem_cons] at h
    rcases h with h | h
    · exact Or.inl h
    · exact Or.inr (fillLoop_events_cases cli.kind opts.batch_sz next fuel g opts.n e h)
  cases fs with
  | none => exact hrun none he
  | some k =>
    cases hy : cli.y with
    | true =>
      simp only [fill_database, hy, if_true] at he
      exact hrun _ he
    | false =>
      cases hc : cli.cont with
      | true =>
        simp only [fill_database, hy, hc, Bool.false_eq_true, if_false, if_true] at he
        exact hrun _ he
      | false =>
        simp only [fill_database, hy, hc, Bool.false_eq_true, if_false] at he
        simp at he

lemma reportCount_beginEvs (kind : EngineKind) : reportCount (beginEvs kind) = 0 := by
  cases kind <;> rfl

lemma isReport_putEv (kind : EngineKind) : isReport (putEv kind) = false := by
  cases kind <;> rfl

lemma reportCount_batchEvs (kind : EngineKind) (p : ℕ) :
    reportCount (beginEvs kind ++ (List.replicate p (putEv kind) ++ [commitEv kind])) = 0 := by
  unfold reportCount
  rw [List.countP_append, List.countP_append]
  have h1 : List.countP isReport (beginEvs kind) = 0 := reportCount_beginEvs kind
  have h2 : List.countP isReport (List.replicate p (putEv kind)) = 0 := by
    rw [List.countP_eq_zero]
    intro a ha
    rw [List.eq_of_mem_replicate ha]
    simp [isReport_putEv]
  have h3 : List.countP isReport [commitEv kind] = 0 := by cases kind <;> rfl
  omega

lemma fillLoop_run (kind : EngineKind) (bsz : ℕ) {σ : Type} (next : σ → σ) (hb : 0 < bsz) :
    ∀ (fuel : ℕ) (r : ℕ) (g : σ), 0 < fuel → r ≤ fuel * bsz →
      (fillLoop kind bsz next fuel g r).done = true
      ∧ putsSum (fillLoop kind bsz next fuel g r).batches = r
      ∧ (∀ b ∈ (fillLoop kind bsz next fuel g r).batches, b.puts ≤ bsz)
      ∧ (fillLoop kind bsz next fuel g r).batches ≠ []
      ∧ ((fillLoop kind bsz next fuel g r).batches.getLast?).map BatchRec.puts
          = some (if r % bsz = 0 ∧ 0 < r then bsz else r % bsz)
      ∧ (∀ b ∈ (fillLoop kind bsz next fuel g r).batches.dropLast, b.reported = true)
      ∧ ((fillLoop kind bsz next fuel g r).batches.getLast?).map BatchRec.reported
          = some false
      ∧ reportCount (fillLoop kind bsz next fuel g r).events
          = (fillLoop kind bsz next fuel g r).batches.length - 1 := by
  intro fuel
  induction fuel with
  | zero => intro r g h0 _; omega
  | succ m ih =>
    intro r g _ hr
    have hbp : (batchPuts next bsz g r).2 = min bsz r := batchPuts_snd next bsz g r
    rw [fillLoop_succ]
    by_cases hle : r ≤ bsz
    · have hp : (batchPuts next bsz g r).2 = r := by omega
      rw [hp, if_pos (by omega)]
      have hfin : (if r % bsz = 0 ∧ 0 < r then bsz else r % bsz) = r := by
        rcases Nat.lt_or_ge r bsz with hlt | hge
        · rw [Nat.mod_eq_of_lt hlt, if_neg (by omega)]
        · have hrb : r = bsz := by omega
          subst hrb
          rw [Nat.mod_self, if_pos ⟨rfl, hb⟩]
      refine ⟨rfl, by simp [putsSum], ?_, by simp, ?_, by simp, rfl, ?_⟩
      · intro b hbmem
        simp only [List.mem_singleton] at hbmem
        subst hbmem
        exact hle
      · rw [hfin]
        rfl
      · rw [reportCount_batchEvs]
        rfl
    · have hp : (batchPuts next bsz g r).2 = bsz := by omega
      rw [hp, if_neg (by omega)]
      have hrr : r - bsz ≤ m * bsz := by
        have hsm : (m + 1) * bsz = m * bsz + bsz := by ring
        omega
      have hm : 0 < m := by
        rcases Nat.eq_zero_or_pos m with hm0 | hm
        · subst hm0
          have hz : 0 * bsz = 0 := Nat.zero_mul bsz
          omega
        · exact hm
      obtain ⟨ih1, ih2, ih3, ih4, ih5, ih6, ih7, ih8⟩ :=
        ih (r - bsz) (batchPuts next bsz g r).1 hm hrr
      obtain ⟨hd, tl, hrest⟩ := List.exists_cons_of_ne_nil ih4
      have hreq : r = bsz + (r - bsz) := by omega
      have hmod : r % bsz = (r - bsz) % bsz := by
        conv_lhs => rw [hreq]
        rw [Nat.add_mod_left]
      have hval : (if (r - bsz) % bsz = 0 ∧ 0 < r - bsz then bsz else (r - bsz) % bsz)
          = (if r % bsz = 0 ∧ 0 < r then bsz else r % bsz) := by
        by_cases hz : r % bsz = 0
        · have hz2 : (r - bsz) % bsz = 0 := by rw [← hmod]; exact hz
          rw [if_pos ⟨hz2, by omega⟩, if_pos ⟨hz, by omega⟩]
        · have hz2 : ¬ (r - bsz) % bsz = 0 := by rw [← hmod]; exact hz
          rw [if_neg (fun hh => hz2 hh.1), if_neg (fun hh => hz hh.1)]
          exact hmod.symm
      refine ⟨ih1, ?_, ?_, by simp, ?_, ?_, ?_, ?_⟩
      · simp only [putsSum]
        rw [ih2]
        omega
      · intro b hbmem
        simp only [List.mem_cons] at hbmem
        rcases hbmem with hbmem | hbmem
        · subst hbmem; exact Nat.le_refl bsz
        · exact ih3 b hbmem
      · rw [hrest] at ih5 ⊢
        rw [List.getLast?_cons_cons, ih5]
        exact congrArg some hval
      · rw [hrest] at ih6 ⊢
        have hdl : ((⟨bsz, true⟩ : BatchRec) :: hd :: tl).dropLast
            = (⟨bsz, true⟩ : BatchRec) :: (hd :: tl).dropLast := rfl
        rw [hdl]
        intro b hbmem
        simp only [List.mem_cons] at hbmem
        rcases hbmem with hbmem | hbmem
        · subst hbmem; rfl
        · exact ih6 b hbmem
      · rw [hrest] at ih7 ⊢
        rw [List.getLast?_cons_cons, ih7]
      · unfold reportCount
        rw [List.countP_append, List.countP_cons]
        have h1 := reportCount_batchEvs kind bsz
        unfold reportCount at h1 ih8
        have hlen : 0 < (fillLoop kind bsz next m (batchPuts next bsz g r).1
            (r - bsz)).batches.length := by
          rw [hrest]; simp
        simp only [isReport, if_true, List.length_cons]
        omega

lemma remTrace_chain : ∀ (bs : List BatchRec) (n : ℕ),
    List.Chain' (fun a b => b ≤ a) (remTrace n bs)
  | [], n => by simp [remTrace]
  | b :: bs, n => by
    have ih := remTrace_chain bs (n - b.puts)
    have hh : ∀ (l : List BatchRec) (m : ℕ), (remTrace m l).head? = some m := by
      intro l m; cases l <;> rfl
    simp only [remTrace]
    cases hrt : remTrace (n - b.puts) bs with
    | nil => simp
    | cons x xs =>
      rw [hrt] at ih
      have hx : x = n - b.puts := by
        have hhd := hh bs (n - b.puts)
        rw [hrt] at hhd
        have hx2 : some x = some (n - b.puts) := by simpa using hhd
        exact Option.some.inj hx2
      exact List.Chain'.cons (by omega) ih

lemma foldl_sub_eq : ∀ (bs : List BatchRec) (n : ℕ),
    List.foldl (fun r b => r - b.puts) n bs = n - putsSum bs
  | [], n => by simp [putsSum]
  | b :: bs, n => by
    simp only [List.foldl_cons, putsSum]
    rw [foldl_sub_eq bs (n - b.puts)]
    omega

lemma klgNext_cold_always_fresh (value_sz fuel : ℕ) (pool : List (List ℕ)) (g : Pcg64) :
    klgNext ALWAYS_TRUE value_sz fuel pool g
      = some ((fill_bytes 32 g).1,
          (fill_bytes value_sz (fill_bytes 32 g).2).1,
          pool ++ [(fill_bytes 32 g).1],
          (fill_bytes value_sz (fill_bytes 32 g).2).2) := by
  by_cases hp : pool.isEmpty = true
  · simp [klgNext, hp]
  · simp [klgNext, hp, gen_bool]

/-- Claim C1, counterexample.  The claim quantifies over every batch_size,
but with batch_sz = 0 and N = 1 the fill loop of src/main.rs lines 235-281
never breaks out: the inner loop performs no puts, remaining stays at 1, and
no amount of observation fuel sees the run complete, so no completed run
whose batches sum to N exists. -/
theorem c1_counterexample :
    ¬ ∃ fuel : ℕ,
      (fillLoop EngineKind.mdbx 0 (fun u : Unit => u) fuel () 1).done = true := by
  rintro ⟨fuel, hf⟩
  rw [fillLoop_bsz_zero EngineKind.mdbx (fun u => u) fuel () 1 (by omega)] at hf
  exact Bool.false_ne_true hf

/-- Claim C1, amended: for every batch_size at least 1 (and for N = 0 with
any batch_size) the fill loop completes within N + 1 batches, the put
operations across all batches sum to exactly N, no batch performs more than
batch_size puts, and the final batch performs N mod batch_size puts (or
batch_size when N is an exact positive multiple of batch_size); for
batch_size = 0 and N positive the loop never completes. -/
theorem c1_amended (kind : EngineKind) (bsz n : ℕ) {σ : Type} (next : σ → σ) (g : σ)
    (h : 0 < bsz ∨ n = 0) :
    (fillLoop kind bsz next (n + 1) g n).done = true
    ∧ putsSum (fillLoop kind bsz next (n + 1) g n).batches = n
    ∧ (∀ b ∈ (fillLoop kind bsz next (n + 1) g n).batches, b.puts ≤ bsz)
    ∧ ((fillLoop kind bsz next (n + 1) g n).batches.getLast?).map BatchRec.puts
        = some (if n % bsz = 0 ∧ 0 < n then bsz else n % bsz) := by
  rcases h with hb | hn
  · have hr : n ≤ (n + 1) * bsz := by
      have hsm : (n + 1) * bsz = n * bsz + bsz := by ring
      have hnb : n ≤ n * bsz := Nat.le_mul_of_pos_right n hb
      omega
    obtain ⟨h1, h2, h3, _, h5, _, _, _⟩ :=
      fillLoop_run kind bsz next hb (n + 1) n g (Nat.succ_pos n) hr
    exact ⟨h1, h2, h3, h5⟩
  · subst hn
    rw [fillLoop_zero_items]
    refine ⟨rfl, rfl, ?_, ?_⟩
    · intro b hbmem
      simp only [List.mem_singleton] at hbmem
      subst hbmem
      exact Nat.zero_le bsz
    · simp

/-- Witness for c1_amended at kind = mdbx, batch_sz = 2, N = 5: three
batches of 2, 2 and 1 puts. -/
theorem c1_amended_witness :
    ((0 : ℕ) < 2 ∨ (5 : ℕ) = 0)
    ∧ ((fillLoop EngineKind.mdbx 2 (fun u : Unit => u) (5 + 1) () 5).done = true
      ∧ putsSum (fillLoop EngineKind.mdbx 2 (fun u : Unit => u) (5 + 1) () 5).batches = 5
      ∧ (∀ b ∈ (fillLoop EngineKind.mdbx 2 (fun u : Unit => u) (5 + 1) () 5).batches,
          b.puts ≤ 2)
      ∧ ((fillLoop EngineKind.mdbx 2 (fun u : Unit => u) (5 + 1) () 5).batches.getLast?).map
          BatchRec.puts = some (if 5 % 2 = 0 ∧ 0 < 5 then 2 else 5 % 2)) :=
  ⟨Or.inl (by decide), c1_amended EngineKind.mdbx 2 5 (fun u => u) () (Or.inl (by decide))⟩

/-- Claim C3, counterexample.  The claim includes batch_size = 0, but with
batch_sz = 0 and N = 2 the fill loop never terminates: no amount of
observation fuel sees it break out. -/
theorem c3_counterexample :
    ¬ ∃ fuel : ℕ,
      (fillLoop EngineKind.rocksdb 0 (fun u : Unit => u) fuel () 2).done = true := by
  rintro ⟨fuel, hf⟩
  rw [fillLoop_bsz_zero EngineKind.rocksdb (fun u => u) fuel () 2 (by omega)] at hf
  exact Bool.false_ne_true hf

/-- Claim C3, amended: for every N and batch_size with batch_size at least 1
or N = 0, the fill loop terminates, the remaining counter (traced at batch
boundaries) never increases, and it is exactly zero at run completion; for
batch_size = 0 and N positive the loop never terminates. -/
theorem c3_amended (kind : EngineKind) (bsz n : ℕ) {σ : Type} (next : σ → σ) (g : σ)
    (h : 0 < bsz ∨ n = 0) :
    (fillLoop kind bsz next (n + 1) g n).done = true
    ∧ List.Chain' (fun a b => b ≤ a)
        (remTrace n (fillLoop kind bsz next (n + 1) g n).batches)
    ∧ List.foldl (fun r b => r - b.puts) n (fillLoop kind bsz next (n + 1) g n).batches
        = 0 := by
  have hchain := remTrace_chain (fillLoop kind bsz next (n + 1) g n).batches n
  rcases h with hb | hn
  · have hr : n ≤ (n + 1) * bsz := by
      have hsm : (n + 1) * bsz = n * bsz + bsz := by ring
      have hnb : n ≤ n * bsz := Nat.le_mul_of_pos_right n hb
      omega
    obtain ⟨h1, h2, _⟩ := fillLoop_run kind bsz next hb (n + 1) n g (Nat.succ_pos n) hr
    refine ⟨h1, hchain, ?_⟩
    rw [foldl_sub_eq, h2]
    omega
  · subst hn
    refine ⟨?_, hchain, ?_⟩
    · rw [fillLoop_zero_items]
    · rw [foldl_sub_eq]
      omega

/-- Witness for c3_amended at kind = rocksdb, batch_sz = 3, N = 7. -/
theorem c3_amended_witness :
    ((0 : ℕ) < 3 ∨ (7 : ℕ) = 0)
    ∧ ((fillLoop EngineKind.rocksdb 3 (fun u : Unit => u) (7 + 1) () 7).done = true
      ∧ List.Chain' (fun a b => b ≤ a)
          (remTrace 7 (fillLoop EngineKind.rocksdb 3 (fun u : Unit => u) (7 + 1) () 7).batches)
      ∧ List.foldl (fun r b => r - b.puts) 7
          (fillLoop EngineKind.rocksdb 3 (fun u : Unit => u) (7 + 1) () 7).batches = 0) :=
  ⟨Or.inl (by decide),
    c3_amended EngineKind.rocksdb 3 7 (fun u => u) () (Or.inl (by decide))⟩

/-- Claim C8: with N = 0 the fill operation terminates successfully after a
single empty batch commit and performs zero engine put operations. -/
theorem c8_zero_items (cli : Cli) (bsz vsz : ℕ) {σ : Type} (next : σ → σ) (g : σ)
    (fuel : ℕ) :
    (fill_database cli ⟨0, bsz, vsz⟩ next g none (fuel + 1)).outcome
        = Outcome.completed [⟨0, false⟩]
    ∧ putCount (fill_database cli ⟨0, bsz, vsz⟩ next g none (fuel + 1)).events = 0 := by
  obtain ⟨kind, cy, cc, cyolo⟩ := cli
  constructor
  · simp [fill_database, engineRun, fillLoop_zero_items]
  · simp only [fill_database, engineRun, putCount]
    rw [fillLoop_zero_items]
    cases kind <;> cases cyolo <;> rfl

/-- Claim C9: on every terminating fill run, each batch except the final one
is followed by exactly one progress report, and no report follows the final
batch. -/
theorem c9_reports (kind : EngineKind) (bsz n : ℕ) {σ : Type} (next : σ → σ) (g : σ)
    (h : 0 < bsz ∨ n = 0) :
    (∀ b ∈ (fillLoop kind bsz next (n + 1) g n).batches.dropLast, b.reported = true)
    ∧ ((fillLoop kind bsz next (n + 1) g n).batches.getLast?).map BatchRec.reported
        = some false
    ∧ reportCount (fillLoop kind bsz next (n + 1) g n).events
        = (fillLoop kind bsz next (n + 1) g n).batches.length - 1 := by
  rcases h with hb | hn
  · have hr : n ≤ (n + 1) * bsz := by
      have hsm : (n + 1) * bsz = n * bsz + bsz := by ring
      have hnb : n ≤ n * bsz := Nat.le_mul_of_pos_right n hb
      omega
    obtain ⟨_, _, _, _, _, h6, h7, h8⟩ :=
      fillLoop_run kind bsz next hb (n + 1) n g (Nat.succ_pos n) hr
    exact ⟨h6, h7, h8⟩
  · subst hn
    rw [fillLoop_zero_items]
    refine ⟨?_, rfl, ?_⟩
    · intro b hbmem
      simp at hbmem
    · cases kind <;> rfl

/-- Witness for c9_reports at kind = mdbx, batch_sz = 2, N = 3: two batches,
one report. -/
theorem c9_reports_witness :
    ((0 : ℕ) < 2 ∨ (3 : ℕ) = 0)
    ∧ ((∀ b ∈ (fillLoop EngineKind.mdbx 2 (fun u : Unit => u) (3 + 1) () 3).batches.dropLast,
          b.reported = true)
      ∧ ((fillLoop EngineKind.mdbx 2 (fun u : Unit => u) (3 + 1) () 3).batches.getLast?).map
          BatchRec.reported = some false
      ∧ reportCount (fillLoop EngineKind.mdbx 2 (fun u : Unit => u) (3 + 1) () 3).events
          = (fillLoop EngineKind.mdbx 2 (fun u : Unit => u) (3 + 1) () 3).batches.length - 1) :=
  ⟨Or.inl (by decide),
    c9_reports EngineKind.mdbx 2 3 (fun u => u) () (Or.inl (by decide))⟩

/-- Claim C2, counterexample.  With the yolo flag set, one item and one
batch, the run completes but its engine-call trace contains zero flush
calls, not the claimed single final flush: fill_database has no sync call
after its loop (src/main.rs lines 281-283). -/
theorem c2_counterexample :
    (fill_database ⟨EngineKind.mdbx, false, false, true⟩ ⟨1, 1, 32⟩
        (fun u : Unit => u) () none 2).outcome = Outcome.completed [⟨1, false⟩]
    ∧ flushCount (fill_database ⟨EngineKind.mdbx, false, false, true⟩ ⟨1, 1, 32⟩
        (fun u : Unit => u) () none 2).events = 0 := by
  constructor <;> rfl

/-- Claim C2, amended: whatever the flags, fill_database issues no explicit
flush at all; under the yolo (no-sync) mode it returns directly after the
last batch commit with durability deferred to the backend's own close
behaviour. -/
theorem c2_amended (cli : Cli) (opts : FillOpts) {σ : Type} (next : σ → σ) (g : σ)
    (fs : Option FileKind) (fuel : ℕ) :
    flushCount (fill_database cli opts next g fs fuel).events = 0 := by
  unfold flushCount
  rw [List.countP_eq_zero]
  intro e he
  rcases fill_database_events_cases cli opts next g fs fuel e he with h | h | h | h | h
  · subst h
    obtain ⟨kind, cy, cc, cyolo⟩ := cli
    cases kind <;> simp [openEv, isFlush]
  · simp [ev_batch_not_flush cli.kind e (Or.inl h)]
  · simp [ev_batch_not_flush cli.kind e (Or.inr (Or.inl h))]
  · simp [ev_batch_not_flush cli.kind e (Or.inr (Or.inr (Or.inl h)))]
  · simp [ev_batch_not_flush cli.kind e (Or.inr (Or.inr (Or.inr h)))]

/-- Claim C4 (code bug witness).  With the overwrite flag on an existing
database directory, the run proceeds and completes, yet the pre-existing
directory is still there: std::fs::remove_file cannot remove a directory
and its error is discarded at src/main.rs line 217, so nothing is removed
before the new fill begins. -/
theorem c4_overwrite_not_removed :
    (fill_database ⟨EngineKind.mdbx, true, false, false⟩ ⟨1, 1, 32⟩
        (fun u : Unit => u) () (some FileKind.dir) 2).fs = some FileKind.dir
    ∧ (fill_database ⟨EngineKind.mdbx, true, false, false⟩ ⟨1, 1, 32⟩
        (fun u : Unit => u) () (some FileKind.dir) 2).outcome
      = Outcome.completed [⟨1, false⟩] := by
  constructor <;> rfl

/-- Claim C6: the key generator is a pure function of the seed constants,
the cold threshold, the value size, the pool state and the request count, so
two runs with equal inputs produce identical key sequences, bit for bit. -/
theorem c6_determinism (p_int value_sz fuel n : ℕ) (pool₁ pool₂ : List (List ℕ))
    (g₁ g₂ : Pcg64) (hpool : pool₁ = pool₂) (hg : g₁ = g₂) :
    klgRun p_int value_sz fuel n pool₁ g₁ = klgRun p_int value_sz fuel n pool₂ g₂ := by
  rw [hpool, hg]

/-- Witness for c6_determinism: two fill-style runs (empty pool, the seeded
generator of src/main.rs line 230, cold probability one) agree. -/
theorem c6_determinism_witness :
    (([] : List (List ℕ)) = ([] : List (List ℕ)))
    ∧ fillSeedRng = fillSeedRng
    ∧ klgRun ALWAYS_TRUE 32 1 2 [] fillSeedRng
        = klgRun ALWAYS_TRUE 32 1 2 [] fillSeedRng :=
  ⟨rfl, rfl,
    c6_determinism ALWAYS_TRUE 32 1 2 [] [] fillSeedRng fillSeedRng rfl rfl⟩

/-- Claim C7: when the database path exists and neither the overwrite nor
the continue flag is set, fill_database aborts with the error message of
src/main.rs line 221 before the engine is opened, issuing no backend call
and leaving the on-disk state untouched. -/
theorem c7_preflight_abort (cli : Cli) (opts : FillOpts) {σ : Type} (next : σ → σ)
    (g : σ) (k : FileKind) (fuel : ℕ) (hy : cli.y = false) (hc : cli.cont = false) :
    fill_database cli opts next g (some k) fuel
      = ⟨some k, [], Outcome.aborted abortMsg⟩ := by
  obtain ⟨kind, cy, cc, cyolo⟩ := cli
  simp only at hy hc
  subst hy
  subst hc
  rfl

/-- Witness for c7_preflight_abort: an existing database directory with
both flags off aborts untouched. -/
theorem c7_preflight_abort_witness :
    Cli.y ⟨EngineKind.mdbx, false, false, false⟩ = false
    ∧ Cli.cont ⟨EngineKind.mdbx, false, false, false⟩ = false
    ∧ fill_database ⟨EngineKind.mdbx, false, false, false⟩ ⟨5, 2, 32⟩
        (fun u : Unit => u) () (some FileKind.dir) 7
      = ⟨some FileKind.dir, [], Outcome.aborted abortMsg⟩ :=
  ⟨rfl, rfl,
    c7_preflight_abort ⟨EngineKind.mdbx, false, false, false⟩ ⟨5, 2, 32⟩
      (fun u => u) () FileKind.dir 7 rfl rfl⟩

/-- Claim C10: with the rocksdb engine, flipping the yolo flag changes
nothing in the run (the flag is only read when opening mdbx), and every
commit call issued to the backend is a write_without_wal. -/
theorem c10_rocksdb_wal (cy cc : Bool) (opts : FillOpts) {σ : Type} (next : σ → σ)
    (g : σ) (fs : Option FileKind) (fuel : ℕ) :
    fill_database ⟨EngineKind.rocksdb, cy, cc, true⟩ opts next g fs fuel
        = fill_database ⟨EngineKind.rocksdb, cy, cc, false⟩ opts next g fs fuel
    ∧ ∀ e ∈ (fill_database ⟨EngineKind.rocksdb, cy, cc, true⟩ opts next g fs fuel).events,
        isCommitCall e = true → e = Ev.rocksdbWriteWithoutWal := by
  constructor
  · rcases fs with _ | k <;> cases cy <;> cases cc <;> rfl
  · intro e he hcall
    rcases fill_database_events_cases ⟨EngineKind.rocksdb, cy, cc, true⟩ opts next g fs
        fuel e he with h | h
    · subst h
      simp [openEv, isCommitCall] at hcall
    · exact ev_batch_commit_rocksdb e h hcall

/-- Witness for c10_rocksdb_wal: in a concrete one-item rocksdb run, the
commit call present in the trace is a write_without_wal. -/
theorem c10_rocksdb_wal_witness :
    Ev.rocksdbWriteWithoutWal
        ∈ (fill_database ⟨EngineKind.rocksdb, false, false, true⟩ ⟨1, 1, 32⟩
            (fun u : Unit => u) () none 2).events
    ∧ isCommitCall Ev.rocksdbWriteWithoutWal = true
    ∧ Ev.rocksdbWriteWithoutWal = Ev.rocksdbWriteWithoutWal :=
  ⟨by decide, by decide,
    (c10_rocksdb_wal false false ⟨1, 1, 32⟩ (fun u : Unit => u) () none 2).2
      Ev.rocksdbWriteWithoutWal (by decide) (by decide)⟩
